import Mathlib

/-!
Verification of the progresscafe state-encoding and update-semantics core
(`src/store.rs`), as a shallow embedding in Lean.

Machine integers (`i64`) are modelled as `Int` with explicit range checks,
strings as Lean `String` (whose `data` field is the character list), Rust
`Result` as `Except`, Rust `Option` as `Option`, and a Rust panic as a
distinguished outcome of the embedded function.
-/

namespace PCafe

/-- `EXPIRE_SECONDS` from store.rs: the fixed TTL applied to every write. -/
def EXPIRE_SECONDS : Nat := 60 * 60 * 4

/-- The character predicate of `check_string` in store.rs:
`c.is_ascii_alphanumeric() || c == '_' || c == '-' || c == '.'`.
Lean's `Char.isAlphanum` is ASCII-only, matching `is_ascii_alphanumeric`. -/
def allowed_char (c : Char) : Bool :=
  c.isAlphanum || c = '_' || c = '-' || c = '.'

/-- The error values produced by the embedded fallible functions
(`anyhow` errors in the source, distinguished here by their cause). -/
inductive UErr where
  | invalidCharset : UErr
  | invalidNumber : UErr
deriving DecidableEq, Repr

/-- `check_string` from store.rs: succeeds (returning the string) iff every
character is allowed. -/
def check_string (s : String) : Except UErr String :=
  if s.data.all allowed_char then .ok s else .error .invalidCharset

/-- ASCII lowercasing of one character, as Rust's `to_ascii_lowercase`. -/
def ascii_lower (c : Char) : Char :=
  if 'A' ≤ c ∧ c ≤ 'Z' then Char.ofNat (c.toNat + 32) else c

/-- Rust `str::to_ascii_lowercase`. -/
def to_ascii_lowercase (s : String) : String :=
  ⟨s.data.map ascii_lower⟩

/-- Rust `str::parse::<i64>()`: an optional sign, then one or more ASCII
digits, with the value required to fit in a signed 64-bit integer. -/
def parse_i64 (s : String) : Option Int :=
  let p : Int × List Char :=
    match s.data with
    | '+' :: rest => (1, rest)
    | '-' :: rest => (-1, rest)
    | l => (1, l)
  if p.2.isEmpty then none
  else if p.2.all Char.isDigit then
    let n : Nat := p.2.foldl (fun a c => a * 10 + (c.toNat - 48)) 0
    let v : Int := p.1 * (n : Int)
    if -(2 ^ 63) ≤ v ∧ v ≤ 2 ^ 63 - 1 then some v else none
  else none

/-- `parse_i64_or_null` from store.rs: the literal `null` (ASCII
case-insensitively) denotes an explicit null; otherwise the string must
parse as an `i64`. -/
def parse_i64_or_null (s : String) : Except UErr (Option Int) :=
  if to_ascii_lowercase s = "null" then .ok none
  else
    match parse_i64 s with
    | some v => .ok (some v)
    | none => .error .invalidNumber

/-- `Key` from store.rs: a namespace token and a task key. -/
structure Key where
  token : String
  key : String
deriving DecidableEq, Repr

/-- `TryFrom<(S1, S2)> for Key` from store.rs: validates the token with
`check_string` and stores the task key unchecked. -/
def key_try_from (token k : String) : Except UErr Key :=
  match check_string token with
  | .error e => .error e
  | .ok _ => .ok ⟨token, k⟩

/-- The string built by `Key::redis_key` (the `format!` expression). -/
def mk_redis_key (k : Key) (param : String) : String :=
  "pcafe:" ++ k.token ++ ":" ++ k.key ++ ":" ++ param

/-- `Key::redis_key` from store.rs. The source asserts that `param`
contains no colon; the violated assertion (a Rust panic) is modelled as
`none`. -/
def redis_key (k : Key) (param : String) : Option String :=
  if ':' ∈ param.data then none else some (mk_redis_key k param)

/-- `Key::redis_key_pattern` from store.rs: the wildcard scan pattern. -/
def redis_key_pattern (k : Key) : String :=
  "pcafe:" ++ k.token ++ ":" ++ k.key ++ "*"

/-- Rust `str::split(c)` on a character list: splits at every occurrence
of `c`; always returns at least one (possibly empty) segment. -/
def splitOnChar : List Char → Char → List (List Char)
  | [], _ => [[]]
  | x :: xs, c =>
    match splitOnChar xs c with
    | [] => [[]]
    | h :: t => if x = c then [] :: h :: t else (x :: h) :: t

/-- Rust `str::split_once(c)` on a character list: splits at the first
occurrence of `c`, or `none` when `c` does not occur. -/
def splitOnceChar : List Char → Char → Option (List Char × List Char)
  | [], _ => none
  | x :: xs, c =>
    if x = c then some ([], xs)
    else (splitOnceChar xs c).map (fun p => (x :: p.1, p.2))

/-- Rust `str::split_once` lifted to `String`. -/
def split_once (s : String) (c : Char) : Option (String × String) :=
  (splitOnceChar s.data c).map (fun p => (⟨p.1⟩, ⟨p.2⟩))

/-- Rust `[&str]::join(sep)` on character lists. -/
def joinWith (sep : List Char) : List (List Char) → List Char
  | [] => []
  | [x] => x
  | x :: y :: t => x ++ sep ++ joinWith sep (y :: t)

/-- Outcome of `Key::from_redis_key`: success, one of the two error
causes, or a Rust panic (the out-of-bounds index `v[1]` / slice
`v[2..v.len()-1]` when fewer than three segments were produced). -/
inductive DecodeResult where
  | ok : Key → DecodeResult
  | invalidCharset : DecodeResult
  | badStructure : DecodeResult
  | panic : DecodeResult
deriving DecidableEq, Repr

/-- `Key::from_redis_key` from store.rs: split on `:`, validate every
segment's charset (this happens first, via the collected `Result`), then
index segment 0, segment 1 and the slice `v[2..v.len()-1]` — which panics
when fewer than 3 segments exist — and finally match segment 0 against
the literal `pcafe`. -/
def from_redis_key (s : String) : DecodeResult :=
  if (splitOnChar s.data ':').all (fun seg => seg.all allowed_char) then
    if (splitOnChar s.data ':').length < 3 then .panic
    else if (splitOnChar s.data ':').getD 0 [] = "pcafe".data then
      .ok ⟨⟨(splitOnChar s.data ':').getD 1 []⟩,
           ⟨joinWith [':'] (((splitOnChar s.data ':').drop 2).dropLast)⟩⟩
    else .badStructure
  else .invalidCharset

/-- Rust `Result::ok()` on a `DecodeResult`: keeps only successes. A panic
is NOT swallowed by `.ok()`; callers must handle it separately. -/
def DecodeResult.toOption : DecodeResult → Option Key
  | .ok k => some k
  | _ => none

/-- A value written to the store: the label is a string, current/max are
64-bit integers. -/
inductive RVal where
  | str : String → RVal
  | int : Int → RVal
deriving DecidableEq, Repr

/-- A store command, as produced by `Update::as_cmd`:
`Cmd::set_ex(key, value, ttl)` or `Cmd::del(key)`. -/
inductive Cmd where
  | setEx : String → RVal → Nat → Cmd
  | del : String → Cmd
deriving DecidableEq, Repr

/-- `Update` from store.rs. `state` (the label) is a plain two-state
option; `current` and `max` are tri-state
(`absent` / `present-as-null` / `present-with-value`). -/
structure Update where
  key : Key
  state : Option String
  current : Option (Option Int)
  max : Option (Option Int)
deriving DecidableEq, Repr

/-- `Update::as_cmd` from store.rs: no command when the outer option is
absent; a delete when present-as-null; a TTL-stamped write when
present-with-value. The `param` arguments used by `as_cmds` are the three
colon-free literals, so the assertion inside `redis_key` always holds and
the key string is built directly. -/
def as_cmd (k : Key) (param : String) (val : Option (Option RVal)) : Option Cmd :=
  let rk := mk_redis_key k param
  val.map (fun v =>
    match v with
    | some x => Cmd.setEx rk x EXPIRE_SECONDS
    | none => Cmd.del rk)

/-- `Update::as_cmds` from store.rs. Note how the source wraps the
two-state `state` field in an outer `Some(...)`, so the label always
produces a command. -/
def as_cmds (u : Update) : List Cmd :=
  ([as_cmd u.key "state" (some (u.state.map RVal.str)),
    as_cmd u.key "current" (u.current.map (Option.map RVal.int)),
    as_cmd u.key "max" (u.max.map (Option.map RVal.int))]).filterMap id

/-- The `let (current, max) = match rest.split_once("/")` step of
`Update::from_query`: split the remainder on the first `/`; when a `/` is
present the part after it is parsed by `parse_i64_or_null`
(`?`-propagating its error), otherwise `max` stays absent and the whole
remainder is the raw `current` segment. -/
def parse_current_max (rest : String) :
    Except UErr (String × Option (Option Int)) :=
  match split_once rest '/' with
  | some (c, m) =>
    match parse_i64_or_null m with
    | .error e => .error e
    | .ok mv => .ok (c, some mv)
  | none => .ok (rest, none)

/-- The `let current = if current == "" ...` step of `Update::from_query`:
an empty raw `current` segment is absent; otherwise it is parsed by
`parse_i64_or_null` (`?`-propagating its error). -/
def parse_current (cur0 : String) : Except UErr (Option (Option Int)) :=
  if cur0 = "" then .ok none
  else
    match parse_i64_or_null cur0 with
    | .error e => .error e
    | .ok cv => .ok (some cv)

/-- The part of `Update::from_query` after the label has been split off:
parse max, then current, then build the `Key` (validating the token), in
exactly the source's evaluation order. -/
def from_query_body (token k : String) (state : Option String) (rest : String) :
    Except UErr Update :=
  match parse_current_max rest with
  | .error e => .error e
  | .ok (cur0, mx) =>
    match parse_current cur0 with
    | .error e => .error e
    | .ok current =>
      match key_try_from token k with
      | .error e => .error e
      | .ok key => .ok ⟨key, state, current, mx⟩

/-- `Update::from_query` from store.rs: everything before the first `!`
(when one occurs) is the label and must pass `check_string`; the rest is
handled by `from_query_body`. -/
def from_query (token : String) : String × String → Except UErr Update
  | (k, val) =>
    match split_once val '!' with
    | some (st, rest) =>
      match check_string st with
      | .error e => .error e
      | .ok s => from_query_body token k (some s) rest
    | none => from_query_body token k none val

/-- Decidable equality for `Except`, used to evaluate the embedded
functions on concrete inputs. -/
instance instDecEqExcept {ε α : Type} [DecidableEq ε] [DecidableEq α] :
    DecidableEq (Except ε α) := fun x y =>
  match x, y with
  | .ok a, .ok b =>
    if h : a = b then .isTrue (by rw [h]) else .isFalse (by simp [h])
  | .error a, .error b =>
    if h : a = b then .isTrue (by rw [h]) else .isFalse (by simp [h])
  | .ok _, .error _ => .isFalse (by simp)
  | .error _, .ok _ => .isFalse (by simp)

/-- A store/transport fault (a `RedisError` in the source). -/
structure StoreErr where
  msg : String
deriving DecidableEq, Repr

/-- The store connection as seen by `Store::get_param`: a typed `GET` per
key, which either succeeds with an optional value (absent keys give
`none`) or fails with a store error. String-valued and integer-valued
reads are the two `FromRedisValue` instantiations used by
`Store::get_state`. -/
structure Conn where
  getStr : String → Except StoreErr (Option String)
  getInt : String → Except StoreErr (Option Int)

/-- `Value` from store.rs: the record assembled by `Store::get_state`. -/
structure Value where
  state : Option String
  current : Option Int
  max : Option Int
deriving DecidableEq, Repr

/-- `Store::get_param` from store.rs (string-valued): one `GET` on the
field's redis key. The params used are the colon-free literals, so the
assertion inside `Key::redis_key` always holds. -/
def get_param_str (c : Conn) (k : Key) (param : String) :
    Except StoreErr (Option String) :=
  c.getStr (mk_redis_key k param)

/-- `Store::get_param` from store.rs (integer-valued). -/
def get_param_int (c : Conn) (k : Key) (param : String) :
    Except StoreErr (Option Int) :=
  c.getInt (mk_redis_key k param)

/-- `Store::get_state` from store.rs: three independent reads, in source
order, each `?`-propagating a store error. -/
def get_state (c : Conn) (k : Key) : Except StoreErr Value :=
  match get_param_str c k "state" with
  | .error e => .error e
  | .ok st =>
    match get_param_int c k "current" with
    | .error e => .error e
    | .ok cur =>
      match get_param_int c k "max" with
      | .error e => .error e
      | .ok mx => .ok ⟨st, cur, mx⟩

/-- `Store::get_all_keys` from store.rs, with the raw keys produced by the
`SCAN MATCH` modelled as the list `scan`. The source first validates
`(token, keyprefix)` as a `Key`, then decodes each raw key with
`Key::from_redis_key(..).ok()`, discarding failures; a decode that panics
crashes the whole call (modelled as the outer `none`), and the `HashSet`
collection is modelled as a `Finset`. -/
def get_all_keys (scan : List String) (token kpref : String) :
    Option (Except UErr (Finset Key)) :=
  match key_try_from token kpref with
  | .error e => some (.error e)
  | .ok _ =>
    if scan.any (fun v => from_redis_key v = DecodeResult.panic) then none
    else
      some (.ok ((scan.filterMap (fun v => (from_redis_key v).toOption)).toFinset))

/-- The `encodeKey` operation of the spec as the source realises it:
build the `Key` via its `TryFrom` impl, then render the store key with
`Key::redis_key` (whose assertion-panic is the inner `none`). -/
def encode_key (token task field : String) : Except UErr (Option String) :=
  match key_try_from token task with
  | .error e => .error e
  | .ok k => .ok (redis_key k field)

/-- The `encodePattern` operation of the spec as the source realises it:
build the `Key` via its `TryFrom` impl, then `Key::redis_key_pattern`. -/
def encode_pattern (token task : String) : Except UErr String :=
  match key_try_from token task with
  | .error e => .error e
  | .ok k => .ok (redis_key_pattern k)

/-- The command that `as_cmds` always emits for the label field: a
TTL-stamped write when a label value is present, otherwise a delete. -/
def label_cmd (u : Update) : Cmd :=
  match u.state with
  | some s => Cmd.setEx (mk_redis_key u.key "state") (RVal.str s) EXPIRE_SECONDS
  | none => Cmd.del (mk_redis_key u.key "state")

/-- The command a present tri-state integer field compiles to: a
TTL-stamped write for present-with-value, a delete for present-as-null. -/
def tri_cmd (rk : String) : Option Int → Cmd
  | some n => Cmd.setEx rk (RVal.int n) EXPIRE_SECONDS
  | none => Cmd.del rk

/-! ### Helper lemmas about the character-list splitters -/

theorem splitOnChar_ne_nil (l : List Char) (c : Char) : splitOnChar l c ≠ [] := by
  cases l with
  | nil => simp [splitOnChar]
  | cons x xs =>
    simp only [splitOnChar]
    cases h : splitOnChar xs c with
    | nil => simp
    | cons h1 t => by_cases hx : x = c <;> simp [hx]

theorem splitOnChar_append (a b : List Char) (c : Char) :
    splitOnChar (a ++ c :: b) c = splitOnChar a c ++ splitOnChar b c := by
  induction a with
  | nil =>
    simp only [List.nil_append, splitOnChar]
    cases h : splitOnChar b c with
    | nil => exact absurd h (splitOnChar_ne_nil b c)
    | cons h1 t => simp
  | cons x xs ih =>
    simp only [List.cons_append, splitOnChar, List.append_eq]
    rw [ih]
    cases h : splitOnChar xs c with
    | nil => exact absurd h (splitOnChar_ne_nil xs c)
    | cons h1 t => by_cases hx : x = c <;> simp [hx]

theorem splitOnChar_of_not_mem {l : List Char} {c : Char} (h : c ∉ l) :
    splitOnChar l c = [l] := by
  induction l with
  | nil => rfl
  | cons x xs ih =>
    simp only [List.mem_cons, not_or] at h
    have hx : ¬ x = c := fun hh => h.1 hh.symm
    simp [splitOnChar, ih h.2, hx]

theorem joinWith_splitOnChar (l : List Char) (c : Char) :
    joinWith [c] (splitOnChar l c) = l := by
  induction l with
  | nil => rfl
  | cons x xs ih =>
    simp only [splitOnChar]
    cases h : splitOnChar xs c with
    | nil => exact absurd h (splitOnChar_ne_nil xs c)
    | cons h1 t =>
      rw [h] at ih
      by_cases hx : x = c
      · subst hx
        simp only [if_pos rfl, joinWith]
        simpa using ih
      · simp only [if_neg hx]
        cases t with
        | nil =>
          simp only [joinWith] at ih ⊢
          rw [ih]
        | cons y t2 =>
          simp only [joinWith] at ih ⊢
          simp only [List.cons_append]
          rw [ih]

theorem colon_not_mem_of_all_allowed {l : List Char}
    (h : l.all allowed_char = true) : ':' ∉ l := by
  intro hm
  have h2 := List.all_eq_true.mp h ':' hm
  exact absurd h2 (by decide)

theorem splitOnceChar_of_not_mem {l : List Char} {c : Char} (h : c ∉ l) :
    splitOnceChar l c = none := by
  induction l with
  | nil => rfl
  | cons x xs ih =>
    simp only [List.mem_cons, not_or] at h
    have hx : ¬ x = c := fun hh => h.1 hh.symm
    simp [splitOnceChar, hx, ih h.2]

theorem splitOnceChar_of_mem {l : List Char} {c : Char} (h : c ∈ l) :
    splitOnceChar l c =
      some (l.takeWhile (fun x => x ≠ c), (l.dropWhile (fun x => x ≠ c)).tail) := by
  induction l with
  | nil => simp at h
  | cons x xs ih =>
    by_cases hx : x = c
    · subst hx
      simp [splitOnceChar]
    · have hmem : c ∈ xs := by
        rcases List.mem_cons.mp h with h1 | h2
        · exact absurd h1.symm hx
        · exact h2
      simp [splitOnceChar, hx, ih hmem]

theorem str_data_append (s t : String) : (s ++ t).data = s.data ++ t.data := rfl

theorem isPrefixOf_exists {l₁ l₂ : List Char} (h : l₁.isPrefixOf l₂ = true) :
    ∃ t, l₂ = l₁ ++ t := by
  rcases List.isPrefixOf_iff_prefix.mp h with ⟨t, ht⟩
  exact ⟨t, ht.symm⟩

/-! ### Helper lemmas about the embedded operations -/

theorem from_query_body_ok_state {token k : String} {st : Option String}
    {rest : String} {u : Update}
    (h : from_query_body token k st rest = .ok u) : u.state = st := by
  unfold from_query_body at h
  split at h
  · cases h
  · split at h
    · cases h
    · split at h
      · cases h
      · injection h with h2
        rw [← h2]

theorem key_try_from_of_valid {token : String} (k : String)
    (h : token.data.all allowed_char = true) :
    key_try_from token k = .ok ⟨token, k⟩ := by
  simp [key_try_from, check_string, h]

theorem decodeResult_toOption_eq_some {d : DecodeResult} {k : Key} :
    d.toOption = some k ↔ d = .ok k := by
  cases d <;> simp [DecodeResult.toOption]

theorem from_redis_key_ne_panic {v : String} {a b rest : List Char}
    (h : v.data = a ++ ':' :: (b ++ ':' :: rest)) :
    from_redis_key v ≠ .panic := by
  have hlen : (splitOnChar v.data ':').length ≥ 3 := by
    rw [h, splitOnChar_append, splitOnChar_append]
    have l1 := List.length_pos.mpr (splitOnChar_ne_nil a ':')
    have l2 := List.length_pos.mpr (splitOnChar_ne_nil b ':')
    have l3 := List.length_pos.mpr (splitOnChar_ne_nil rest ':')
    simp only [List.length_append]
    omega
  unfold from_redis_key
  by_cases hall : (splitOnChar v.data ':').all (fun seg => seg.all allowed_char) = true
  · simp only [hall, if_true]
    have h3 : ¬ (splitOnChar v.data ':').length < 3 := by omega
    simp only [h3, if_false]
    split <;> simp
  · simp [hall]

/-! ### Claim C1: per-field compilation of an Update -/

/-- Claim C1, amended. For the `current` and `max` fields independently:
absent produces no operation, present-with-value produces a write of the
field's store key with the fixed TTL, and present-as-null produces a
delete of the field's store key. The label field, however, is two-state
and always emits an operation: a TTL-stamped write when a label value is
present and a delete of the label's store key otherwise. Consequently
every Update compiles to between 1 and 3 operations (never 0). -/
theorem as_cmds_per_field (u : Update) :
    as_cmds u =
      label_cmd u ::
        ((u.current.map (tri_cmd (mk_redis_key u.key "current"))).toList ++
          (u.max.map (tri_cmd (mk_redis_key u.key "max"))).toList) ∧
    1 ≤ (as_cmds u).length ∧ (as_cmds u).length ≤ 3 := by
  obtain ⟨k, st, cur, mx⟩ := u
  rcases st with _ | s <;> rcases cur with _ | ⟨_ | n⟩ <;> rcases mx with _ | ⟨_ | m⟩ <;>
    simp [as_cmds, as_cmd, label_cmd, tri_cmd, Option.toList]

/-- Claim C1 (counterexample): the Update that mentions none of the three
fields (label/current/max all absent) still compiles to one store
operation - a delete of the label's store key - whereas the claim states
that an absent field produces no operation (hence zero operations here). -/
theorem as_cmds_all_absent_emits_delete :
    as_cmds ⟨⟨"t", "k"⟩, none, none, none⟩ = [Cmd.del "pcafe:t:k:state"] ∧
    as_cmds ⟨⟨"t", "k"⟩, none, none, none⟩ ≠ [] := by
  exact ⟨rfl, by decide⟩

/-! ### Claim C2: charset validation at encoding time -/

/-- Claim C2, amended. `encode_key` and `encode_pattern` fail with
`InvalidCharset` exactly when the namespace token contains a character
outside `[A-Za-z0-9_.-]`; the task string is NOT validated at key
construction and is passed through as-is (for a valid token the encode
succeeds no matter what the task contains). -/
theorem encode_validates_token_only (token task field : String) :
    (encode_key token task field = .error .invalidCharset ↔
      token.data.all allowed_char = false) ∧
    (encode_pattern token task = .error .invalidCharset ↔
      token.data.all allowed_char = false) ∧
    (token.data.all allowed_char = true →
      encode_key token task field = .ok (redis_key ⟨token, task⟩ field)) := by
  by_cases h : token.data.all allowed_char = true
  · simp [encode_key, encode_pattern, key_try_from, check_string, h]
  · have h2 : token.data.all allowed_char = false := by
      simpa using h
    simp [encode_key, encode_pattern, key_try_from, check_string, h2]

/-- Witness for `encode_validates_token_only`: for a valid token the
encode succeeds. -/
theorem encode_validates_token_only_witness :
    encode_key "tok" "a:b" "state" = .ok (redis_key ⟨"tok", "a:b"⟩ "state") :=
  (encode_validates_token_only "tok" "a:b" "state").2.2 (by decide)

/-- Claim C2 (counterexample): a task whose single colon-delimited segment
contains a space (outside the allowed charset) is NOT rejected: encoding
succeeds and the invalid characters are passed straight through into the
store key and the scan pattern. -/
theorem encode_key_accepts_invalid_task :
    encode_key "tok" "bad key" "state" = .ok (some "pcafe:tok:bad key:state") ∧
    encode_pattern "tok" "bad key" = .ok "pcafe:tok:bad key*" := ⟨rfl, rfl⟩

/-! ### Claim C3: totality of decoding -/

/-- Claim C3 (code bug): `from_redis_key` is NOT total. On an input with
fewer than three colon-separated segments whose characters are all valid -
such as the bare prefix literal itself, or two segments - the source
indexes `v[1]` / slices `v[2..v.len()-1]` out of bounds and panics,
instead of returning the `BadStructure` error the claim describes. The
other legs of the claim do hold: with at least three segments a wrong
first segment gives `BadStructure`, and an invalid character anywhere
gives `InvalidCharset`. -/
theorem from_redis_key_panics_on_short_input :
    from_redis_key "pcafe" = .panic ∧
    from_redis_key "a:b" = .panic ∧
    from_redis_key "x:y:z" = .badStructure ∧
    from_redis_key "p%q" = .invalidCharset := by decide

/-! ### Claim C5: compiling delete-label, absent-current, max=10 -/

/-- Claim C5: compiling an Update whose label is null (the source's
`state: None`, which compiles to a delete), whose current is absent and
whose max is present with value 10 yields exactly two operations: a delete
of the label's store key and a TTL-stamped write of 10 to the max's store
key. -/
theorem as_cmds_delete_label_set_max (k : Key) :
    as_cmds ⟨k, none, none, some (some 10)⟩ =
      [Cmd.del (mk_redis_key k "state"),
       Cmd.setEx (mk_redis_key k "max") (RVal.int 10) EXPIRE_SECONDS] := rfl

/-! ### Claim C4: decode is the inverse of encode -/

/-- Claim C4, amended. For every namespace and task string that pass
charset validation (every colon-delimited segment inside the allowed
charset) and every field name whose characters all lie in the allowed
charset (in particular the three field names the system actually uses),
encoding succeeds (the assertion holds) and decoding the produced key
recovers exactly the original namespace and the original colon-rejoined
task. The amendment: a merely colon-free field is not enough - the field
must also pass the charset check, because decoding validates every
segment including the field segment. -/
theorem decode_encode_roundtrip (tok task field : String)
    (htok : tok.data.all allowed_char = true)
    (htask : ∀ seg ∈ splitOnChar task.data ':', seg.all allowed_char = true)
    (hf : field.data.all allowed_char = true) :
    redis_key ⟨tok, task⟩ field = some (mk_redis_key ⟨tok, task⟩ field) ∧
    from_redis_key (mk_redis_key ⟨tok, task⟩ field) = .ok ⟨tok, task⟩ := by
  have hfc : ':' ∉ field.data := colon_not_mem_of_all_allowed hf
  have htc : ':' ∉ tok.data := colon_not_mem_of_all_allowed htok
  constructor
  · simp [redis_key, hfc]
  · have hdata : (mk_redis_key ⟨tok, task⟩ field).data =
        "pcafe".data ++ ':' :: (tok.data ++ ':' :: (task.data ++ ':' :: field.data)) := by
      simp only [mk_redis_key, str_data_append, List.append_assoc]
      rfl
    have hsplit : splitOnChar (mk_redis_key ⟨tok, task⟩ field).data ':' =
        "pcafe".data :: tok.data :: (splitOnChar task.data ':' ++ [field.data]) := by
      rw [hdata, splitOnChar_append, splitOnChar_append, splitOnChar_append,
          splitOnChar_of_not_mem (by decide : ':' ∉ "pcafe".data),
          splitOnChar_of_not_mem htc, splitOnChar_of_not_mem hfc]
      simp
    unfold from_redis_key
    rw [hsplit]
    have hA : (("pcafe".data :: tok.data ::
        (splitOnChar task.data ':' ++ [field.data])).all
          (fun seg => seg.all allowed_char)) = true := by
      refine List.all_eq_true.mpr ?_
      intro seg hseg
      simp only [List.mem_cons, List.mem_append, List.mem_singleton] at hseg
      rcases hseg with h1 | h1 | h1 | h1 | h1
      · subst h1; decide
      · subst h1; exact htok
      · exact htask seg h1
      · subst h1; exact hf
      · exact absurd h1 (List.not_mem_nil seg)
    rw [if_pos hA]
    have hL : ¬ (("pcafe".data :: tok.data ::
        (splitOnChar task.data ':' ++ [field.data])).length < 3) := by
      simp [List.length_append]
    rw [if_neg hL, if_pos (by rfl)]
    simp only [List.getD_cons_succ, List.getD_cons_zero, List.drop_succ_cons,
      List.drop_zero, List.dropLast_concat, joinWith_splitOnChar]

/-- Claim C4 (counterexample): the claim's hypothesis admits any colon-free
field name, but for the colon-free field `" "` (a space) encoding succeeds
while decoding rejects the produced key with `InvalidCharset` instead of
recovering the identifier. -/
theorem decode_encode_fails_for_space_field :
    redis_key ⟨"a", "b"⟩ " " = some "pcafe:a:b: " ∧
    from_redis_key "pcafe:a:b: " = .invalidCharset ∧
    from_redis_key "pcafe:a:b: " ≠ .ok ⟨"a", "b"⟩ := by decide

/-- Witness for `decode_encode_roundtrip` at the concrete identifier
`ns` / `a:b` / `state`. -/
theorem decode_encode_roundtrip_witness :
    redis_key ⟨"ns", "a:b"⟩ "state" = some (mk_redis_key ⟨"ns", "a:b"⟩ "state") ∧
    from_redis_key (mk_redis_key ⟨"ns", "a:b"⟩ "state") = .ok ⟨"ns", "a:b"⟩ :=
  decode_encode_roundtrip "ns" "a:b" "state" (by decide) (by decide) (by decide)

theorem check_string_eq_ok {l : List Char} (h : l.all allowed_char = true) :
    check_string ⟨l⟩ = .ok ⟨l⟩ := by
  simp only [check_string]
  rw [if_pos h]

theorem check_string_eq_error {l : List Char} (h : l.all allowed_char = false) :
    check_string ⟨l⟩ = .error .invalidCharset := by
  simp only [check_string]
  rw [if_neg (by simp [h])]

theorem split_once_of_not_mem {s : String} {c : Char} (h : c ∉ s.data) :
    split_once s c = none := by
  simp [split_once, splitOnceChar_of_not_mem h]

theorem split_once_of_mem {s : String} {c : Char} (h : c ∈ s.data) :
    split_once s c =
      some (⟨s.data.takeWhile (fun x => x ≠ c)⟩,
            ⟨(s.data.dropWhile (fun x => x ≠ c)).tail⟩) := by
  simp [split_once, splitOnceChar_of_mem h]

/-! ### Claim C6: empty current vs empty max -/

/-- Claim C6: in the update grammar an empty current segment (an empty
string before a `/`, or an entirely empty body) parses as absent, while an
empty max segment after a `/` is a parse error (`InvalidNumber`) rather
than absent; in particular parsing `/50` succeeds with current absent and
max present-with-value 50. -/
theorem from_query_empty_segments (token k : String)
    (htok : token.data.all allowed_char = true) :
    from_query token (k, "") = .ok ⟨⟨token, k⟩, none, none, none⟩ ∧
    (∀ m w, '!' ∉ m.data → parse_i64_or_null m = .ok w →
      from_query token (k, "/" ++ m) = .ok ⟨⟨token, k⟩, none, none, some w⟩) ∧
    from_query token (k, "/") = .error .invalidNumber ∧
    from_query token (k, "/50") = .ok ⟨⟨token, k⟩, none, none, some (some 50)⟩ := by
  have hkey := key_try_from_of_valid k htok
  refine ⟨?_, ?_, rfl, ?_⟩
  · have h1 : split_once "" '!' = none := rfl
    have h2 : parse_current_max "" = .ok ("", none) := rfl
    simp [from_query, h1, from_query_body, h2, parse_current, hkey]
  · intro m w hm hw
    have h1 : split_once ("/" ++ m) '!' = none := by
      apply split_once_of_not_mem
      intro hc
      rw [show ("/" ++ m).data = '/' :: m.data from rfl] at hc
      rcases List.mem_cons.mp hc with h | h
      · exact absurd h (by decide)
      · exact hm h
    have h2 : split_once ("/" ++ m) '/' = some ("", m) := rfl
    simp [from_query, h1, from_query_body, parse_current_max, h2, hw, parse_current, hkey]
  · have h1 : split_once "/50" '!' = none := rfl
    have h2 : parse_current_max "/50" = .ok ("", some (some 50)) := rfl
    simp [from_query, h1, from_query_body, h2, parse_current, hkey]

/-- Witness for `from_query_empty_segments` at token `t`, key `k`. -/
theorem from_query_empty_segments_witness :
    from_query "t" ("k", "") = .ok ⟨⟨"t", "k"⟩, none, none, none⟩ ∧
    from_query "t" ("k", "/") = .error .invalidNumber ∧
    from_query "t" ("k", "/50") = .ok ⟨⟨"t", "k"⟩, none, none, some (some 50)⟩ :=
  ⟨(from_query_empty_segments "t" "k" (by decide)).1,
   (from_query_empty_segments "t" "k" (by decide)).2.2.1,
   (from_query_empty_segments "t" "k" (by decide)).2.2.2⟩

/-! ### Claim C7: parsing of the current segment -/

/-- Claim C7: when the whole value is the current segment (no `!`, no `/`)
and it is non-empty, the case-insensitive literal `null` parses as
present-as-null; any other non-empty segment is parsed as a signed 64-bit
integer, becoming present-with-value on success and failing with
`InvalidNumber` otherwise; in particular `abc/100` fails with
`InvalidNumber`. -/
theorem from_query_current_rules (token k c : String)
    (htok : token.data.all allowed_char = true)
    (hne : c ≠ "") (hbang : '!' ∉ c.data) (hslash : '/' ∉ c.data) :
    (to_ascii_lowercase c = "null" →
      from_query token (k, c) = .ok ⟨⟨token, k⟩, none, some none, none⟩) ∧
    (to_ascii_lowercase c ≠ "null" → ∀ n, parse_i64 c = some n →
      from_query token (k, c) = .ok ⟨⟨token, k⟩, none, some (some n), none⟩) ∧
    (to_ascii_lowercase c ≠ "null" → parse_i64 c = none →
      from_query token (k, c) = .error .invalidNumber) ∧
    from_query token (k, "abc/100") = .error .invalidNumber := by
  have hkey := key_try_from_of_valid k htok
  have h1 : split_once c '!' = none := split_once_of_not_mem hbang
  have h2 : split_once c '/' = none := split_once_of_not_mem hslash
  have hcm : parse_current_max c = .ok (c, none) := by
    simp [parse_current_max, h2]
  refine ⟨?_, ?_, ?_, rfl⟩
  · intro hnull
    simp [from_query, h1, from_query_body, hcm, parse_current, hne,
      parse_i64_or_null, hnull, hkey]
  · intro hnn n hn
    simp [from_query, h1, from_query_body, hcm, parse_current, hne,
      parse_i64_or_null, hnn, hn, hkey]
  · intro hnn hn
    simp [from_query, h1, from_query_body, hcm, parse_current, hne,
      parse_i64_or_null, hnn, hn]

/-- Witness for `from_query_current_rules` at the values `NULL`, `7` and
`abc/100`. -/
theorem from_query_current_rules_witness :
    from_query "t" ("k", "NULL") = .ok ⟨⟨"t", "k"⟩, none, some none, none⟩ ∧
    from_query "t" ("k", "7") = .ok ⟨⟨"t", "k"⟩, none, some (some 7), none⟩ ∧
    from_query "t" ("k", "abc/100") = .error .invalidNumber :=
  ⟨(from_query_current_rules "t" "k" "NULL" (by decide) (by decide) (by decide)
      (by decide)).1 (by decide),
   (from_query_current_rules "t" "k" "7" (by decide) (by decide) (by decide)
      (by decide)).2.1 (by decide) 7 (by decide),
   (from_query_current_rules "t" "k" "x" (by decide) (by decide) (by decide)
      (by decide)).2.2.2⟩

/-! ### Claim C8: parsing of the label -/

/-- Claim C8: parsing makes the label present-with-value exactly when the
value contains a `!`: everything before the first `!` becomes the label
and must itself pass the identifier charset validation (the parse fails
with `InvalidCharset` otherwise); without a `!` the parsed update carries
no label value; in particular `done!5/null` yields label `done`, current
present-with-value 5, and max present-as-null. -/
theorem from_query_label_rules (token k v : String)
    (htok : token.data.all allowed_char = true) :
    ('!' ∉ v.data → ∀ u, from_query token (k, v) = .ok u → u.state = none) ∧
    ('!' ∈ v.data → ∀ u, from_query token (k, v) = .ok u →
      u.state = some ⟨v.data.takeWhile (fun x => x ≠ '!')⟩ ∧
      (v.data.takeWhile (fun x => x ≠ '!')).all allowed_char = true) ∧
    ('!' ∈ v.data → (v.data.takeWhile (fun x => x ≠ '!')).all allowed_char = false →
      from_query token (k, v) = .error .invalidCharset) ∧
    from_query token (k, "done!5/null") =
      .ok ⟨⟨token, k⟩, some "done", some (some 5), some none⟩ := by
  refine ⟨?_, ?_, ?_, ?_⟩
  · intro hnb u hu
    simp only [from_query, split_once_of_not_mem hnb] at hu
    exact from_query_body_ok_state hu
  · intro hb u hu
    simp only [from_query, split_once_of_mem hb] at hu
    by_cases hcs : (v.data.takeWhile (fun x => x ≠ '!')).all allowed_char = true
    · rw [check_string_eq_ok hcs] at hu
      exact ⟨from_query_body_ok_state hu, hcs⟩
    · have hcs2 : (v.data.takeWhile (fun x => x ≠ '!')).all allowed_char = false :=
        Bool.eq_false_iff.mpr hcs
      rw [check_string_eq_error hcs2] at hu
      cases hu
  · intro hb hcs
    simp only [from_query, split_once_of_mem hb, check_string_eq_error hcs]
  · have h1 : split_once "done!5/null" '!' = some ("done", "5/null") := rfl
    have h2 : check_string "done" = .ok "done" := rfl
    have h3 : parse_current_max "5/null" = .ok ("5", some none) := rfl
    have h4 : parse_current "5" = .ok (some (some 5)) := rfl
    simp [from_query, h1, h2, from_query_body, h3, h4, key_try_from_of_valid k htok]

/-- Witness for `from_query_label_rules` at the value `done!5/null`. -/
theorem from_query_label_rules_witness :
    from_query "t" ("k", "done!5/null") =
      .ok ⟨⟨"t", "k"⟩, some "done", some (some 5), some none⟩ :=
  (from_query_label_rules "t" "k" "done!5/null" (by decide)).2.2.2

/-! ### Claim C9: state reading tolerates absent fields -/

/-- Claim C9: `get_state` never fails merely because some or all of the
three sub-fields are missing: whenever the three reads succeed - each
possibly absent - the result is the record of exactly those three optional
values (in particular all-absent gives an all-absent record and no
error); and an error is only returned when one of the three store reads
itself failed, in which case no partial record is produced. -/
theorem get_state_absence_tolerant (c : Conn) (k : Key) :
    (∀ st cur mx,
      get_param_str c k "state" = .ok st →
      get_param_int c k "current" = .ok cur →
      get_param_int c k "max" = .ok mx →
      get_state c k = .ok ⟨st, cur, mx⟩) ∧
    (∀ e, get_state c k = .error e →
      get_param_str c k "state" = .error e ∨
      get_param_int c k "current" = .error e ∨
      get_param_int c k "max" = .error e) := by
  constructor
  · intro st cur mx h1 h2 h3
    simp [get_state, h1, h2, h3]
  · intro e he
    unfold get_state at he
    cases h1 : get_param_str c k "state" with
    | error e1 => rw [h1] at he; cases he; exact Or.inl rfl
    | ok st =>
      rw [h1] at he
      cases h2 : get_param_int c k "current" with
      | error e2 => rw [h2] at he; cases he; exact Or.inr (Or.inl rfl)
      | ok cur =>
        rw [h2] at he
        cases h3 : get_param_int c k "max" with
        | error e3 => rw [h3] at he; cases he; exact Or.inr (Or.inr rfl)
        | ok mx => rw [h3] at he; cases he

/-- Witness for `get_state_absence_tolerant`: a store in which nothing was
ever written answers every read with `ok none`, and reading any identifier
returns the all-absent record without error. -/
theorem get_state_absence_tolerant_witness :
    get_state ⟨fun _ => .ok none, fun _ => .ok none⟩ ⟨"t", "k"⟩ =
      .ok ⟨none, none, none⟩ :=
  (get_state_absence_tolerant ⟨fun _ => .ok none, fun _ => .ok none⟩
      ⟨"t", "k"⟩).1 none none none rfl rfl rfl

/-! ### Claim C10: enumeration discards bad keys and deduplicates -/

/-- Claim C10: for any sequence of raw keys returned by the store's
pattern scan (every such key extends the literal prefix
`pcafe:<token>:`), `get_all_keys` returns successfully (no panic, no
error), every key that fails to decode is silently discarded, and the
successfully decoded keys are deduplicated by bare identifier - the
`Finset` membership is exactly "some raw key in the scan decodes to this
identifier", so a task appearing under several raw field keys contributes
one element. -/
theorem get_all_keys_discards_and_dedups (scan : List String) (token kpref : String)
    (htok : token.data.all allowed_char = true)
    (hscan : ∀ v ∈ scan, (("pcafe:" ++ token ++ ":").data).isPrefixOf v.data = true) :
    ∃ s : Finset Key,
      get_all_keys scan token kpref = some (.ok s) ∧
      ∀ key : Key, key ∈ s ↔ ∃ v ∈ scan, from_redis_key v = .ok key := by
  have hnopanic : ∀ v ∈ scan, from_redis_key v ≠ .panic := by
    intro v hv
    obtain ⟨t, ht⟩ := isPrefixOf_exists (hscan v hv)
    have hshape : v.data = "pcafe".data ++ ':' :: (token.data ++ ':' :: t) := by
      rw [ht]
      simp only [str_data_append, List.append_assoc]
      rfl
    exact from_redis_key_ne_panic hshape
  refine ⟨(scan.filterMap (fun v => (from_redis_key v).toOption)).toFinset, ?_, ?_⟩
  · unfold get_all_keys
    rw [key_try_from_of_valid kpref htok]
    rw [if_neg ?_]
    simp only [List.any_eq_true, not_exists, not_and]
    intro v hv
    simp only [decide_eq_true_eq]
    exact hnopanic v hv
  · intro key
    simp only [List.mem_toFinset, List.mem_filterMap]
    constructor
    · rintro ⟨v, hv, hsome⟩
      exact ⟨v, hv, decodeResult_toOption_eq_some.mp hsome⟩
    · rintro ⟨v, hv, hok⟩
      exact ⟨v, hv, decodeResult_toOption_eq_some.mpr hok⟩

/-- Witness for `get_all_keys_discards_and_dedups`: a scan returning the
three field keys of one task plus one malformed key yields a defined,
error-free result whose membership predicate holds exactly for the one
decoded identifier. -/
theorem get_all_keys_discards_and_dedups_witness :
    ∃ s : Finset Key,
      get_all_keys ["pcafe:t:a:state", "pcafe:t:a:current", "pcafe:t:a:max",
        "pcafe:t:bad key:state"] "t" "" = some (.ok s) ∧
      ∀ key : Key, key ∈ s ↔
        ∃ v ∈ ["pcafe:t:a:state", "pcafe:t:a:current", "pcafe:t:a:max",
          "pcafe:t:bad key:state"], from_redis_key v = .ok key :=
  get_all_keys_discards_and_dedups _ "t" "" (by decide) (by decide)

end PCafe
